import Mathlib

/-!
Verification development for the aquitari agent knowledge-graph pipeline.

The definitions below are a shallow embedding of:
  brain-api/app_scripts/redis_feedback_graph_updater.py  (graph file + feedback actions)
  brain-api/app_scripts/logic.py                         (NetworkX reasoning engine)
  brain-api/app_scripts/graph_auto_linker.py             (TF-IDF and embedding auto linker)

JSON dictionaries are modelled as records whose fields are `Option`-valued when
the corresponding key may be absent; a Python `KeyError` on a missing key is
modelled by an error outcome.  String-valued identifiers and relations are
modelled as `String`.  Python mutates the graph dictionary in place, so an
action that raises after it has already modified the graph leaves the partial
modification behind; the embedding returns the partially modified document
together with the error in that case.
-/

set_option maxHeartbeats 1000000

namespace Aquitari

/-- Attribute values appearing under a node's "attributes" key: either a plain
string or a list of strings (the two forms handled by the auto linker's
`build_text_representation`). -/
inductive AttrV where
  | s (v : String)
  | l (vs : List String)
  deriving DecidableEq

/-- A node dictionary of the persisted graph document.  `none` models an absent
key. -/
structure NodeR where
  id : Option String
  type : Option String
  description : Option String
  attributes : Option (List (String × AttrV))
  deriving DecidableEq

/-- An edge dictionary of the persisted graph document.  `none` models an
absent key. -/
structure EdgeR where
  source : Option String
  target : Option String
  relation : Option String
  deriving DecidableEq

/-- The persisted knowledge-graph document: a JSON object with "nodes" and
"edges" lists. -/
structure GraphDoc where
  nodes : List NodeR
  edges : List EdgeR
  deriving DecidableEq

/-- A single feedback action dictionary: an "action" string plus a "node" or
"edge" payload, any of which may be absent. -/
structure Feedback where
  action : Option String
  node : Option NodeR
  edge : Option EdgeR
  deriving DecidableEq

/-- A feedback message, which may carry a list of actions under the "actions"
key; otherwise the message itself is treated as a single action. -/
structure FeedbackMsg extends Feedback where
  actions : Option (List Feedback)

/-! ### redis_feedback_graph_updater.py -/

/-- `load_graph`: reads the persisted document; on a missing file or malformed
JSON (modelled as `none`) it returns the fresh empty structure. -/
def loadGraphFile (content : Option GraphDoc) : GraphDoc :=
  match content with
  | some doc => doc
  | none => { nodes := [], edges := [] }

/-- The list comprehension `[n["id"] for n in graph["nodes"]]`: evaluated left
to right, raising KeyError at the first node without an "id" key. -/
def getIds : List NodeR → Except String (List String)
  | [] => .ok []
  | n :: rest =>
    match n.id with
    | none => .error ("KeyError: id")
    | some nid =>
      match getIds rest with
      | .error e => .error e
      | .ok ids => .ok (nid :: ids)

/-- The generator `any(n["id"] == node["id"] for n in graph["nodes"])` of the
add_node branch: walks the nodes, raising KeyError on a missing "id" (on the
stored node or on the payload), stopping at the first match. -/
def dupNodeCheck : List NodeR → NodeR → Except String Bool
  | [], _ => .ok false
  | n :: rest, p =>
    match n.id with
    | none => .error ("KeyError: id")
    | some nid =>
      match p.id with
      | none => .error ("KeyError: id")
      | some pid =>
        if nid = pid then .ok true else dupNodeCheck rest p

/-- The add_node branch of `apply_single_action`.  Note that when the node list
is empty the duplicate check never touches the payload's "id", so a payload
without an id is appended before the success log line raises KeyError. -/
def addNodeAct (g : GraphDoc) (p : NodeR) : GraphDoc × Option String :=
  match dupNodeCheck g.nodes p with
  | .error e => (g, some e)
  | .ok true => (g, none)
  | .ok false =>
    let g1 : GraphDoc := { g with nodes := g.nodes ++ [p] }
    match p.id with
    | none => (g1, some ("KeyError: id"))
    | some _ => (g1, none)

/-- The duplicate-edge generator of the add_edge branch.  The payload's
"relation" key is only read once the stored edge matches on source and target
(the `and` chain short-circuits). -/
def dupEdgeCheck : List EdgeR → String → String → Option String → Except String Bool
  | [], _, _, _ => .ok false
  | e :: rest, s, t, rOpt =>
    if e.source = some s ∧ e.target = some t then
      match rOpt with
      | none => .error ("KeyError: relation")
      | some r => if e.relation = some r then .ok true else dupEdgeCheck rest s t rOpt
    else dupEdgeCheck rest s t rOpt

/-- The add_edge branch of `apply_single_action`: the edge is appended only
when both endpoints already exist among the node ids and the exact
(source, target, relation) triple is not already present.  When the edge list
is empty the duplicate check never reads the payload's "relation", so a
payload without a relation is appended before the log line raises. -/
def addEdgeAct (g : GraphDoc) (ep : EdgeR) : GraphDoc × Option String :=
  match getIds g.nodes with
  | .error e => (g, some e)
  | .ok sources =>
    match ep.source with
    | none => (g, some ("KeyError: source"))
    | some s =>
      if s ∈ sources then
        match ep.target with
        | none => (g, some ("KeyError: target"))
        | some t =>
          if t ∈ sources then
            match dupEdgeCheck g.edges s t ep.relation with
            | .error e => (g, some e)
            | .ok true => (g, none)
            | .ok false =>
              let g1 : GraphDoc := { g with edges := g.edges ++ [ep] }
              match ep.relation with
              | none => (g1, some ("KeyError: relation"))
              | some _ => (g1, none)
          else (g, none)
      else (g, none)

/-- The update loop of the update_node branch: every stored node whose id
matches the payload id is merged with the payload (`dict.update`: keys present
in the payload overwrite, absent keys are kept).  A missing "id" raises midway,
keeping the updates already applied. -/
def updateNodes : List NodeR → NodeR → List NodeR × Option String
  | [], _ => ([], none)
  | n :: rest, p =>
    match n.id with
    | none => (n :: rest, some ("KeyError: id"))
    | some nid =>
      match p.id with
      | none => (n :: rest, some ("KeyError: id"))
      | some pid =>
        if nid = pid then
          let merged : NodeR :=
            { id := p.id
              type := p.type.orElse (fun _ => n.type)
              description := p.description.orElse (fun _ => n.description)
              attributes := p.attributes.orElse (fun _ => n.attributes) }
          let res := updateNodes rest p
          (merged :: res.1, res.2)
        else
          let res := updateNodes rest p
          (n :: res.1, res.2)

/-- The node-filter comprehension of the delete_node branch, which reads
`n["id"]` for every stored node before the assignment happens. -/
def delNodeFilter : List NodeR → String → Except String (List NodeR)
  | [], _ => .ok []
  | n :: rest, nid =>
    match n.id with
    | none => .error ("KeyError: id")
    | some x =>
      match delNodeFilter rest nid with
      | .error e => .error e
      | .ok rest2 => .ok (if x = nid then rest2 else n :: rest2)

/-- The delete_node branch: removes every node with the given id and
cascade-deletes every edge whose source or target (read with `.get`) equals
it. -/
def delNodeAct (g : GraphDoc) (p : NodeR) : GraphDoc × Option String :=
  match p.id with
  | none => (g, some ("KeyError: id"))
  | some nid =>
    match delNodeFilter g.nodes nid with
    | .error e => (g, some e)
    | .ok nodes2 =>
      let edges2 := g.edges.filter (fun e => e.source ≠ some nid ∧ e.target ≠ some nid)
      ({ nodes := nodes2, edges := edges2 }, none)

/-- The delete_edge branch: removes the edges matching the payload on source,
target and relation, all read with `.get` (absent keys compare as None).  The
success log line reads the payload keys with brackets, raising after the
assignment when one is absent. -/
def delEdgeAct (g : GraphDoc) (ep : EdgeR) : GraphDoc × Option String :=
  let edges2 := g.edges.filter (fun e =>
    ¬(e.source = ep.source ∧ e.target = ep.target ∧ e.relation = ep.relation))
  let g1 : GraphDoc := { g with edges := edges2 }
  if edges2.length < g.edges.length then
    match ep.source, ep.target, ep.relation with
    | some _, some _, some _ => (g1, none)
    | _, _, _ => (g1, some ("KeyError"))
  else (g1, none)

/-- `apply_single_action`: dispatches on the "action" value, requiring the
"node" (resp. "edge") payload key; any other shape falls through the elif
chain and returns the graph unchanged.  The second component records a raised
exception (which the caller logs). -/
def applySingleAction (g : GraphDoc) (f : Feedback) : GraphDoc × Option String :=
  match f.action, f.node, f.edge with
  | some ("add_node"), some p, _ => addNodeAct g p
  | some ("add_edge"), _, some ep => addEdgeAct g ep
  | some ("update_node"), some p, _ =>
    let res := updateNodes g.nodes p
    ({ g with nodes := res.1 }, res.2)
  | some ("delete_node"), some p, _ => delNodeAct g p
  | some ("delete_edge"), _, some ep => delEdgeAct g ep
  | _, _, _ => (g, none)

/-- The loop of `apply_feedback` over a list of actions: each action is
attempted in turn; an exception is caught and logged, the (possibly partially
modified) graph is kept, and the loop continues with the remaining actions. -/
def applyFeedbackList (g : GraphDoc) (items : List Feedback) : GraphDoc :=
  items.foldl (fun g a => (applySingleAction g a).1) g

/-- `apply_feedback`: grouped actions are applied one by one, otherwise the
message itself is applied as a single action (with its exception caught and
logged). -/
def applyFeedback (g : GraphDoc) (m : FeedbackMsg) : GraphDoc :=
  match m.actions with
  | some items => applyFeedbackList g items
  | none => (applySingleAction g m.toFeedback).1

/-! ### logic.py: the NetworkX reasoning engine -/

/-- A node of the NetworkX directed graph, with the attributes set by the
loader. -/
structure NXNode where
  id : String
  type : Option String
  description : Option String
  deriving DecidableEq

/-- An edge of the NetworkX directed graph.  A `DiGraph` stores at most one
edge per ordered pair; `rel` is the current value of its "relation"
attribute (the loader always sets the key, possibly to None = `none`). -/
structure NXEdge where
  src : String
  tgt : String
  rel : Option String
  deriving DecidableEq

/-- A NetworkX `DiGraph`: nodes in insertion order (no duplicate ids by
construction) and at most one edge per ordered pair, in insertion order. -/
structure NXDiGraph where
  nodes : List NXNode
  edges : List NXEdge
  deriving DecidableEq

def emptyNX : NXDiGraph := { nodes := [], edges := [] }

def hasNodeG (G : NXDiGraph) (x : String) : Bool :=
  G.nodes.any (fun n => n.id = x)

/-- `G.add_node(id, type=..., description=...)`: a new node is appended;
adding an existing node overwrites the given attributes. -/
def addNXNode (G : NXDiGraph) (nid : String) (ty desc : Option String) : NXDiGraph :=
  if hasNodeG G nid then
    { G with nodes := G.nodes.map (fun n =>
        if n.id = nid then { n with type := ty, description := desc } else n) }
  else
    { G with nodes := G.nodes ++ [{ id := nid, type := ty, description := desc }] }

/-- `add_edge` first ensures both endpoints are nodes (created without
attributes when absent). -/
def nodeIfAbsent (G : NXDiGraph) (x : String) : NXDiGraph :=
  if hasNodeG G x then G
  else { G with nodes := G.nodes ++ [{ id := x, type := none, description := none }] }

/-- `G.add_edge(u, v, relation=r)`: endpoints are added as nodes when missing;
an existing (u, v) edge has its "relation" attribute overwritten, otherwise
the edge is appended. -/
def addNXEdge (G : NXDiGraph) (u v : String) (r : Option String) : NXDiGraph :=
  let G1 := nodeIfAbsent (nodeIfAbsent G u) v
  if G1.edges.any (fun e => e.src = u ∧ e.tgt = v) then
    { G1 with edges := G1.edges.map (fun e =>
        if e.src = u ∧ e.tgt = v then { e with rel := r } else e) }
  else
    { G1 with edges := G1.edges ++ [{ src := u, tgt := v, rel := r }] }

/-- The node-loading loop of `_load_knowledge_graph`: stops (with the partial
graph kept, the exception being caught by the surrounding handler) at the
first node dictionary without an "id" key. -/
def buildNodes : NXDiGraph → List NodeR → NXDiGraph × Bool
  | G, [] => (G, true)
  | G, n :: rest =>
    match n.id with
    | none => (G, false)
    | some nid => buildNodes (addNXNode G nid n.type n.description) rest

/-- The edge-loading loop of `_load_knowledge_graph`: "source" and "target"
are read with brackets (stopping on a missing key), "relation" with `.get`. -/
def buildEdges : NXDiGraph → List EdgeR → NXDiGraph × Bool
  | G, [] => (G, true)
  | G, e :: rest =>
    match e.source with
    | none => (G, false)
    | some s =>
      match e.target with
      | none => (G, false)
      | some t => buildEdges (addNXEdge G s t e.relation) rest

/-- Rebuilding the NetworkX graph from a parsed document: clear, then load
nodes, then edges (an exception leaves the partially built graph in place). -/
def buildFrom (doc : GraphDoc) : NXDiGraph :=
  let resN := buildNodes emptyNX doc.nodes
  if resN.2 then (buildEdges resN.1 doc.edges).1 else resN.1

/-- `_load_knowledge_graph`: on a missing file, or when `json.load` fails
(both modelled as `none`), the method logs and returns, leaving the previous
in-memory graph untouched; only a successfully parsed document clears the
graph and rebuilds it. -/
def loadKnowledgeGraph (prior : NXDiGraph) (content : Option GraphDoc) : NXDiGraph :=
  match content with
  | none => prior
  | some doc => buildFrom doc

/-- `G.successors(u)`: the adjacency of `u` in insertion order. -/
def succsG (G : NXDiGraph) (u : String) : List String :=
  (G.edges.filter (fun e => e.src = u)).map (fun e => e.tgt)

/-- `G.edges[u, v].get("relation")`: the "relation" attribute of the unique
(u, v) edge (the loader always sets the key). -/
def relOf (G : NXDiGraph) (u v : String) : Option String :=
  match G.edges.find? (fun e => e.src = u ∧ e.tgt = v) with
  | some e => e.rel
  | none => none

/-- One-step edge relation of the directed graph. -/
def EdgeStep (G : NXDiGraph) (a b : String) : Prop := b ∈ succsG G a

/-- Existence of a directed path (possibly empty) from `a` to `b`. -/
def ReachProp (G : NXDiGraph) (a b : String) : Prop :=
  Relation.ReflTransGen (EdgeStep G) a b

/-- One round of successor closure: the new successors of the current set are
appended (deduplicated). -/
def reachStep (G : NXDiGraph) (S : List String) : List String :=
  S ++ ((S.flatMap (succsG G)).filter (fun v => v ∉ S)).dedup

def reachIter (G : NXDiGraph) : Nat → List String → List String
  | 0, S => S
  | k + 1, S => reachIter G k (reachStep G S)

/-- The set of nodes reachable from `s`, computed by saturating the successor
closure (enough rounds to visit every node). -/
def reachList (G : NXDiGraph) (s : String) : List String :=
  reachIter G ((G.nodes.map (fun n => n.id)).dedup.length) [s]

/-- `nx.has_path(G, s, t)` (for `s` a node of `G`): whether a directed path
from `s` to `t` exists. -/
def hasPathB (G : NXDiGraph) (s t : String) : Bool :=
  decide (t ∈ reachList G s)

/-- The breadth-first traversal of `nx.bfs_edges(G, source, depth_limit=d)`:
the queue holds (node, remaining depth); the unvisited children of the head
are reported in adjacency order and enqueued while depth remains. -/
def bfsAux (adj : String → List String) : Nat → List String → List (String × Nat) → List (String × String)
  | 0, _, _ => []
  | _ + 1, _, [] => []
  | fuel + 1, visited, (u, d) :: rest =>
    let newKids := (adj u).filter (fun v => v ∉ visited)
    let out := newKids.map (fun v => (u, v))
    let q2 := if 1 < d then rest ++ newKids.map (fun v => (v, d - 1)) else rest
    out ++ bfsAux adj fuel (visited ++ newKids) q2

def bfsEdges (G : NXDiGraph) (s : String) (depthLimit : Nat) : List (String × String) :=
  bfsAux (succsG G) (G.nodes.length + G.edges.length + 1) [s] [(s, depthLimit)]

/-- Rendering of the relation attribute inside the f-string of the reasoning
trace (`str(None)` is "None"). -/
def renderRel (r : Option String) : String :=
  match r with
  | some s => s
  | none => "None"

/-- `_explain_reasoning`: the breadth-first edges from the start node, bounded
to depth 2, rendered as "A --[relation]--> B" strings in visitation order. -/
def explainReasoning (G : NXDiGraph) (s : String) : List String :=
  (bfsEdges G s 2).map (fun p =>
    p.1 ++ " --[" ++ renderRel (relOf G p.1 p.2) ++ "]--> " ++ p.2)

/-- An ASCII apostrophe (used by the unknown-state error message). -/
def sq : String := String.singleton (Char.ofNat 39)

def unknownStateMsg (sid : String) : String :=
  "State " ++ sq ++ sid ++ sq ++ " is not mapped in the Knowledge Graph."

/-- The dictionary returned by `diagnose`, with `none` for absent keys. -/
structure DiagResult where
  error : Option String
  current_state : Option String
  predicted_risks : Option (List (String × Option String))
  activates_safe_mode : Bool
  reasoning_path : Option (List String)
  deriving DecidableEq

/-- `diagnose`: an unknown state yields the structured error result; otherwise
the direct successors are paired with their relation, safe-mode activation is
decided by reachability of the "safe_mode" node, and the reasoning trace is
attached. -/
def diagnose (G : NXDiGraph) (sid : String) : DiagResult :=
  if hasNodeG G sid then
    { error := none
      current_state := some sid
      predicted_risks := some ((succsG G sid).map (fun t => (t, relOf G sid t)))
      activates_safe_mode := hasNodeG G ("safe_mode") && hasPathB G sid ("safe_mode")
      reasoning_path := some (explainReasoning G sid) }
  else
    { error := some (unknownStateMsg sid)
      current_state := none
      predicted_risks := none
      activates_safe_mode := false
      reasoning_path := none }

/-! ### graph_auto_linker.py -/

/-- JSON values, as needed to model the webhook classifier replies (numeric
leaves play no role in the accepted reply shapes). -/
inductive JVal where
  | jnull
  | jbool (b : Bool)
  | jnum (n : Int)
  | jstr (s : String)
  | jarr (elems : List JVal)
  | jobj (fields : List (String × JVal))

/-- Key lookup in a JSON object. -/
def jlookup (fields : List (String × JVal)) (k : String) : Option JVal :=
  match fields.find? (fun kv => kv.1 = k) with
  | some kv => some kv.2
  | none => none

/-- A backtick character. -/
def btick : Char := Char.ofNat 96

/-- Removes leading and trailing occurrences of a character (Python
`str.strip` with an argument). -/
def stripChar (c : Char) (s : String) : String :=
  String.mk (((s.toList.dropWhile (fun x => x = c)).reverse.dropWhile (fun x => x = c)).reverse)

/-- `clean_agent_output`: strips whitespace, removes surrounding triple
backticks, and drops a leading "json" language marker. -/
def cleanAgentOutput (text : String) : String :=
  let t1 := text.trim
  let t2 := if t1.startsWith (String.mk [btick, btick, btick]) then stripChar btick t1 else t1
  if (t2.toLower).startsWith ("json") then (t2.drop 4).trim else t2

/-- Reply shape 1: the agent returns a JSON object with a "relation" field
(string-valued relations are the modelled scope). -/
def shape1 : JVal → Option String
  | .jobj fields =>
    match jlookup fields ("relation") with
    | some (.jstr r) => some r
    | _ => none
  | _ => none

/-- Parsing the cleaned inner text of an "output" field and extracting its
"relation" field; `parse` stands for `json.loads` (returning `none` when it
raises).  Any failure falls through to the next shape. -/
def innerRelation (parse : String → Option JVal) (s : String) : Option String :=
  match parse (cleanAgentOutput s) with
  | some (.jobj fields) =>
    match jlookup fields ("relation") with
    | some (.jstr r) => some r
    | _ => none
  | _ => none

/-- Reply shape 2: a JSON object wrapping the answer in an "output" string. -/
def shape2 (parse : String → Option JVal) : JVal → Option String
  | .jobj fields =>
    match jlookup fields ("output") with
    | some (.jstr s) => innerRelation parse s
    | _ => none
  | _ => none

/-- Reply shape 3: a list whose first element wraps the answer in an "output"
string. -/
def shape3 (parse : String → Option JVal) : JVal → Option String
  | .jarr (first :: _) =>
    match first with
    | .jobj fields =>
      match jlookup fields ("output") with
      | some (.jstr s) => innerRelation parse s
      | _ => none
    | _ => none
  | _ => none

/-- `ask_agent_relation`: `reply = none` models a request error, timeout, or a
body that is not JSON (everything the surrounding try/except catches); the
three accepted shapes are tried in order and any failure falls back to the
sentinel relation. -/
def askAgentRelation (parse : String → Option JVal) (reply : Option JVal) : String :=
  match reply with
  | none => "UNKNOWN_RELATION"
  | some data =>
    match shape1 data with
    | some r => r
    | none =>
      match shape2 parse data with
      | some r => r
      | none =>
        match shape3 parse data with
        | some r => r
        | none => "UNKNOWN_RELATION"

/-- The reply cannot be parsed into a relation field by any of the three
accepted shapes (or the call itself failed). -/
def failsAllShapes (parse : String → Option JVal) (reply : Option JVal) : Prop :=
  match reply with
  | none => True
  | some data => shape1 data = none ∧ shape2 parse data = none ∧ shape3 parse data = none

/-- `edge_exists`: whether the exact (source, target, relation) triple is
present (stored keys read with `.get`). -/
def edgeExists (edges : List EdgeR) (s t r : String) : Bool :=
  edges.any (fun e => e.source = some s ∧ e.target = some t ∧ e.relation = some r)

/-- The nested loop index pairs `for i in range(n): for j in range(i+1, n)` in
iteration order. -/
def pairList (n : Nat) : List (Nat × Nat) :=
  (List.range n).flatMap (fun i =>
    ((List.range n).filter (fun j => i < j)).map (fun j => (i, j)))

/-- The body of one candidate pair in either linking pass: when the similarity
check passes, the relation for the pair is determined and the edge appended
unless the exact triple already exists. -/
def linkStep (rel : Nat → Nat → String) (simOK : Nat → Nat → Bool) (ids : List String)
    (edges : List EdgeR) (p : Nat × Nat) : List EdgeR :=
  if simOK p.1 p.2 then
    let r := rel p.1 p.2
    if edgeExists edges (ids.getD p.1 ("")) (ids.getD p.2 ("")) r then edges
    else edges ++ [{ source := some (ids.getD p.1 ("")), target := some (ids.getD p.2 ("")), relation := some r }]
  else edges

/-- The common shape of `auto_link_tfidf` and `auto_link_embeddings`: node ids
are extracted (raising on a node without an "id"), then every index pair
i < j is examined in order.  `simOK i j` abstracts the comparison of the
computed similarity against the threshold, `rel i j` the relation chosen for
the pair. -/
def linkPass (rel : Nat → Nat → String) (simOK : Nat → Nat → Bool) (g : GraphDoc) :
    Except String GraphDoc :=
  match getIds g.nodes with
  | .error e => .error e
  | .ok ids =>
    let edges2 := (pairList g.nodes.length).foldl (linkStep rel simOK ids) g.edges
    .ok { g with edges := edges2 }

/-- `auto_link_tfidf`: qualifying pairs get the fixed lexical relation. -/
def autoLinkTfidf (simOK : Nat → Nat → Bool) (g : GraphDoc) : Except String GraphDoc :=
  linkPass (fun _ _ => "RELATED_TFIDF") simOK g

/-- `auto_link_embeddings`: qualifying pairs get the relation returned by the
webhook classifier (`rel i j`, an instance of `askAgentRelation`). -/
def autoLinkEmbeddings (rel : Nat → Nat → String) (simOK : Nat → Nat → Bool) (g : GraphDoc) :
    Except String GraphDoc :=
  linkPass rel simOK g

/-! ### TF-IDF similarity (sklearn TfidfVectorizer + cosine_similarity)

The vectorizer lowercases, tokenizes on runs of word characters keeping only
tokens of length at least two, weights raw counts by the smoothed idf
`ln((1+n)/(1+df)) + 1`, l2-normalizes, and the pass compares the cosine
similarity of two documents with the threshold.  Real-number arithmetic
models the floating-point computation. -/

def isWordChar (c : Char) : Bool := c.isAlphanum || c = Char.ofNat 95

/-- Splits a character list into maximal runs of word characters. -/
def splitRuns : List Char → List Char → List (List Char)
  | [], cur => if cur.isEmpty then [] else [cur.reverse]
  | c :: rest, cur =>
    if isWordChar c then splitRuns rest (c :: cur)
    else if cur.isEmpty then splitRuns rest []
    else cur.reverse :: splitRuns rest []

/-- The default token pattern of `TfidfVectorizer` (word runs of length at
least two) applied to the lowercased document (lowercasing character by
character). -/
def tokenize (s : String) : List String :=
  ((splitRuns (s.toList.map Char.toLower) []).filter (fun r => 2 ≤ r.length)).map
    (fun r => String.mk r)

/-- `build_text_representation`: node id, description, and flattened
attribute values joined with spaces. -/
def buildTextRepresentation (node : NodeR) : String :=
  let parts := [node.id.getD (""), node.description.getD ("")]
  let parts := parts ++ (node.attributes.getD []).flatMap (fun kv =>
    match kv.2 with
    | .l vs => vs
    | .s v => [v])
  String.intercalate (" ") parts

/-- The tokenized corpus built from the node list. -/
def corpusOf (nodes : List NodeR) : List (List String) :=
  nodes.map (fun n => tokenize (buildTextRepresentation n))

/-- Document frequency of a term. -/
def dfCount (docs : List (List String)) (t : String) : Nat :=
  docs.countP (fun d => decide (t ∈ d))

/-- The vocabulary: every distinct token of the corpus. -/
def tfVocab (docs : List (List String)) : List String :=
  docs.flatten.dedup

/-- Smoothed inverse document frequency, as computed with
`smooth_idf=True`. -/
noncomputable def idfR (docs : List (List String)) (t : String) : ℝ :=
  Real.log ((1 + (docs.length : ℝ)) / (1 + (dfCount docs t : ℝ))) + 1

/-- The tf-idf weight of term `t` in document `i` (raw count times idf). -/
noncomputable def wgt (docs : List (List String)) (i : Nat) (t : String) : ℝ :=
  (((docs.getD i []).count t : ℕ) : ℝ) * idfR docs t

/-- Inner product of the tf-idf vectors of documents `i` and `j`. -/
noncomputable def dotW (docs : List (List String)) (i j : Nat) : ℝ :=
  ((tfVocab docs).map (fun t => wgt docs i t * wgt docs j t)).sum

/-- Cosine similarity of the tf-idf vectors of documents `i` and `j` (zero
vectors yield similarity 0, as in sklearn). -/
noncomputable def tfidfSimilarity (docs : List (List String)) (i j : Nat) : ℝ :=
  dotW docs i j / (Real.sqrt (dotW docs i i) * Real.sqrt (dotW docs j j))

/-! ### Shared concrete instances -/

/-- A well-keyed node with an id and an optional description. -/
def mkNode (i : String) (d : Option String) : NodeR :=
  { id := some i, type := none, description := d, attributes := none }

/-- A well-keyed edge. -/
def mkEdge (s t r : String) : EdgeR :=
  { source := some s, target := some t, relation := some r }

/-- The three-node chain of the specification example:
low_rest → executive_fatigue → safe_mode, both edges labelled TRIGGERS. -/
def chainDoc : GraphDoc :=
  { nodes := [mkNode ("low_rest") none, mkNode ("executive_fatigue") none, mkNode ("safe_mode") none]
    edges := [mkEdge ("low_rest") ("executive_fatigue") ("TRIGGERS"),
              mkEdge ("executive_fatigue") ("safe_mode") ("TRIGGERS")] }

def chainG : NXDiGraph := buildFrom chainDoc

/-- An add_edge feedback action with a fully keyed edge payload. -/
def addEdgeFb (s t r : String) : Feedback :=
  { action := some ("add_edge"), node := none, edge := some (mkEdge s t r) }

/-- An add_node feedback action with a fully keyed node payload. -/
def addNodeFb (i : String) : Feedback :=
  { action := some ("add_node"), node := some (mkNode i none), edge := none }

/-- A batch message carrying a list of actions. -/
def mkBatch (items : List Feedback) : FeedbackMsg :=
  { action := none, node := none, edge := none, actions := some items }

/-! ### C7: unknown states yield a structured error result -/

/-- C7: for every graph and node id absent from it, `diagnose` returns the
structured unknown-state result carrying the offending id, with
activates_safe_mode false, and (being a total function) never raises. -/
theorem c7_unknown_state_structured (G : NXDiGraph) (n : String)
    (h : hasNodeG G n = false) :
    diagnose G n =
      { error := some (unknownStateMsg n), current_state := none, predicted_risks := none,
        activates_safe_mode := false, reasoning_path := none } := by
  simp [diagnose, h]

/-- Witness for C7 at a concrete graph and unknown id. -/
theorem c7_unknown_state_structured_witness :
    hasNodeG chainG ("ghost_state") = false ∧
    diagnose chainG ("ghost_state") =
      { error := some (unknownStateMsg ("ghost_state")), current_state := none,
        predicted_risks := none, activates_safe_mode := false, reasoning_path := none } :=
  ⟨by decide, c7_unknown_state_structured chainG ("ghost_state") (by decide)⟩

/-! ### C2: behaviour of the loaders on missing or malformed content -/

/-- C2 counterexample: with a non-empty in-memory graph, a load that hits a
missing file or malformed JSON leaves the previous graph fully in place — the
reasoning engine's loader does not yield an empty graph, contradicting the
claim. -/
theorem c2_stale_graph_counterexample :
    loadKnowledgeGraph chainG none = chainG ∧ chainG ≠ emptyNX :=
  ⟨rfl, by decide⟩

/-- C2 amended: the updater's `load_graph` does yield the empty document on
missing or malformed content; the reasoning engine's loader never raises but
keeps the previous in-memory graph unchanged on failure, and only a
successful parse rebuilds the graph — fully, independently of any previous
in-memory state. -/
theorem c2_load_behaviour_amended :
    (loadGraphFile none = { nodes := [], edges := [] }) ∧
    (∀ prior : NXDiGraph, loadKnowledgeGraph prior none = prior) ∧
    (∀ p1 p2 : NXDiGraph, ∀ doc : GraphDoc,
       loadKnowledgeGraph p1 (some doc) = loadKnowledgeGraph p2 (some doc)) :=
  ⟨rfl, fun _ => rfl, fun _ _ _ => rfl⟩

/-! ### C10: unrecognized or incomplete feedback leaves the graph unchanged -/

/-- C10: a feedback object whose action is not one of the five recognized
actions, or that names a recognized action but lacks the required "node"
(resp. "edge") payload key, leaves the graph completely unchanged and raises
no error. -/
theorem c10_unrecognized_action_frame (g : GraphDoc) (f : Feedback)
    (h : (∀ a, f.action = some a →
            a ∉ (["add_node", "add_edge", "update_node", "delete_node", "delete_edge"] : List String))
         ∨ (f.action ∈ ([some ("add_node"), some ("update_node"), some ("delete_node")] : List (Option String))
            ∧ f.node = none)
         ∨ (f.action ∈ ([some ("add_edge"), some ("delete_edge")] : List (Option String))
            ∧ f.edge = none)) :
    applySingleAction g f = (g, none) := by
  obtain ⟨act, nd, ed⟩ := f
  rcases h with h | ⟨hmem, hnd⟩ | ⟨hmem, hed⟩
  · cases act with
    | none => rfl
    | some a =>
      have ha := h a rfl
      simp only [List.mem_cons, List.not_mem_nil, or_false, not_or] at ha
      obtain ⟨h1, h2, h3, h4, h5⟩ := ha
      cases nd <;> cases ed <;> (unfold applySingleAction; split <;> simp_all)
  · simp only [List.mem_cons, List.not_mem_nil, or_false] at hmem
    simp only at hnd
    subst hnd
    rcases hmem with h | h | h <;> (subst h; cases ed <;> rfl)
  · simp only [List.mem_cons, List.not_mem_nil, or_false] at hmem
    simp only at hed
    subst hed
    rcases hmem with h | h <;> (subst h; cases nd <;> rfl)

/-- Witness for C10: an unknown action and a delete_edge without an "edge"
payload both leave a concrete graph untouched. -/
theorem c10_unrecognized_action_frame_witness :
    applySingleAction chainDoc
      { action := some ("merge_nodes"), node := none, edge := none } = (chainDoc, none) ∧
    applySingleAction chainDoc
      { action := some ("delete_edge"), node := some (mkNode ("low_rest") none), edge := none } =
      (chainDoc, none) :=
  ⟨c10_unrecognized_action_frame chainDoc _ (Or.inl (by intro a ha; cases ha; decide)),
   c10_unrecognized_action_frame chainDoc _ (Or.inr (Or.inr (by constructor <;> decide)))⟩

/-! ### C8: one failing action does not abort the rest of a batch -/

/-- C8: in a batch of actions, an action that fails on every graph while
leaving it unchanged (a malformed shape whose apply raises) is transparent:
the remaining actions are still attempted in order and their results are
retained, exactly as if the failing action were absent. -/
theorem c8_batch_failure_isolated (g : GraphDoc) (pre post : List Feedback) (bad : Feedback)
    (hbad : ∀ g2 : GraphDoc,
      (applySingleAction g2 bad).1 = g2 ∧ ((applySingleAction g2 bad).2).isSome = true) :
    applyFeedback g (mkBatch (pre ++ bad :: post)) = applyFeedback g (mkBatch (pre ++ post)) := by
  simp only [applyFeedback, mkBatch, applyFeedbackList, List.foldl_append, List.foldl_cons]
  rw [(hbad _).1]

/-- Witness for C8: an add_edge action whose payload lacks every edge key
fails on any graph; a batch around it still applies both node insertions. -/
theorem c8_batch_failure_isolated_witness :
    applyFeedback { nodes := [], edges := [] }
      (mkBatch [addNodeFb ("n_one"),
                { action := some ("add_edge"), node := none,
                  edge := some { source := none, target := none, relation := none } },
                addNodeFb ("n_two")]) =
      applyFeedback { nodes := [], edges := [] } (mkBatch [addNodeFb ("n_one"), addNodeFb ("n_two")]) ∧
    (applyFeedback { nodes := [], edges := [] }
      (mkBatch [addNodeFb ("n_one"),
                { action := some ("add_edge"), node := none,
                  edge := some { source := none, target := none, relation := none } },
                addNodeFb ("n_two")])).nodes = [mkNode ("n_one") none, mkNode ("n_two") none] :=
  ⟨c8_batch_failure_isolated { nodes := [], edges := [] } [addNodeFb ("n_one")] [addNodeFb ("n_two")] _
    (by
      intro g2
      cases h : getIds g2.nodes <;>
        simp [applySingleAction, addEdgeAct, h]),
   by decide⟩

/-! ### C4: every feedback action preserves referential integrity -/

/-- The ids of the nodes of a document (in order). -/
def docIds (g : GraphDoc) : List String := g.nodes.filterMap (fun n => n.id)

/-- An edge endpoint (read with `.get`) references an existing node id. -/
def refOK (ids : List String) : Option String → Prop
  | some s => s ∈ ids
  | none => False

instance (ids : List String) : (o : Option String) → Decidable (refOK ids o)
  | some s => inferInstanceAs (Decidable (s ∈ ids))
  | none => inferInstanceAs (Decidable False)

/-- Every edge of the document references existing node ids at both ends. -/
def wfRef (g : GraphDoc) : Prop :=
  ∀ e ∈ g.edges, refOK (docIds g) e.source ∧ refOK (docIds g) e.target

instance (g : GraphDoc) : Decidable (wfRef g) :=
  inferInstanceAs (Decidable (∀ e ∈ g.edges, refOK (docIds g) e.source ∧ refOK (docIds g) e.target))

theorem refOK_append (ids more : List String) (o : Option String) (h : refOK ids o) :
    refOK (ids ++ more) o := by
  cases o with
  | none => exact h.elim
  | some s => exact List.mem_append_left _ h

theorem getIds_ok (ns : List NodeR) (ids : List String) (h : getIds ns = .ok ids) :
    ids = ns.filterMap (fun n => n.id) := by
  induction ns generalizing ids with
  | nil =>
    simp only [getIds, Except.ok.injEq] at h
    simp [h.symm]
  | cons n rest ih =>
    unfold getIds at h
    cases hid : n.id with
    | none => rw [hid] at h; exact absurd h (by simp)
    | some nid =>
      rw [hid] at h
      cases hr : getIds rest with
      | error e => rw [hr] at h; exact absurd h (by simp)
      | ok ids2 =>
        rw [hr] at h
        simp only [Except.ok.injEq] at h
        simp [h.symm, List.filterMap_cons, hid, ih ids2 hr]

theorem updateNodes_ids (ns : List NodeR) (p : NodeR) :
    (updateNodes ns p).1.filterMap (fun n => n.id) = ns.filterMap (fun n => n.id) := by
  induction ns with
  | nil => rfl
  | cons n rest ih =>
    unfold updateNodes
    cases hid : n.id with
    | none => simp
    | some nid =>
      cases hpd : p.id with
      | none => simp
      | some pid =>
        by_cases heq : nid = pid
        · subst heq
          simp [List.filterMap_cons, hpd, hid, ih]
        · simp [heq, List.filterMap_cons, hid, ih]

theorem delNodeFilter_ids (ns : List NodeR) (nid : String) (ns2 : List NodeR)
    (h : delNodeFilter ns nid = .ok ns2) :
    ns2.filterMap (fun n => n.id) = (ns.filterMap (fun n => n.id)).filter (fun x => x ≠ nid) := by
  induction ns generalizing ns2 with
  | nil =>
    simp only [delNodeFilter, Except.ok.injEq] at h
    simp [h.symm]
  | cons n rest ih =>
    unfold delNodeFilter at h
    cases hid : n.id with
    | none => rw [hid] at h; exact absurd h (by simp)
    | some x =>
      rw [hid] at h
      cases hr : delNodeFilter rest nid with
      | error e => rw [hr] at h; exact absurd h (by simp)
      | ok rest2 =>
        rw [hr] at h
        simp only [Except.ok.injEq] at h
        by_cases hx : x = nid
        · simp only [hx, if_pos rfl] at h
          simp [h.symm, List.filterMap_cons, hid, ih rest2 hr, hx]
        · simp only [if_neg hx] at h
          simp [h.symm, List.filterMap_cons, hid, ih rest2 hr, hx]

theorem addNodeAct_wf (g : GraphDoc) (p : NodeR) (hwf : wfRef g) :
    wfRef (addNodeAct g p).1 := by
  unfold addNodeAct
  split
  · exact hwf
  · exact hwf
  · have hgrow : wfRef { g with nodes := g.nodes ++ [p] } := by
      intro e he
      have h2 := hwf e he
      have hids : docIds { g with nodes := g.nodes ++ [p] } = docIds g ++ [p].filterMap (fun n => n.id) := by
        simp [docIds]
      rw [hids]
      exact ⟨refOK_append _ _ _ h2.1, refOK_append _ _ _ h2.2⟩
    split
    · exact hgrow
    · exact hgrow

theorem addEdgeAct_wf (g : GraphDoc) (ep : EdgeR) (hwf : wfRef g) :
    wfRef (addEdgeAct g ep).1 := by
  unfold addEdgeAct
  split
  · exact hwf
  case _ sources hsources =>
    cases hsrc : ep.source with
    | none => exact hwf
    | some s =>
      dsimp only
      by_cases hs : s ∈ sources
      · rw [if_pos hs]
        cases htgt : ep.target with
        | none => exact hwf
        | some t =>
          dsimp only
          by_cases ht : t ∈ sources
          · rw [if_pos ht]
            have hids := getIds_ok g.nodes sources hsources
            have hnew : wfRef { g with edges := g.edges ++ [ep] } := by
              intro e he
              rcases List.mem_append.1 he with h | h
              · exact hwf e h
              · have : e = ep := by simpa using h
                subst this
                constructor
                · rw [hsrc]
                  show s ∈ docIds g
                  rw [docIds, ← hids]
                  exact hs
                · rw [htgt]
                  show t ∈ docIds g
                  rw [docIds, ← hids]
                  exact ht
            cases hdup : dupEdgeCheck g.edges s t ep.relation with
            | error e => exact hwf
            | ok b =>
              cases b with
              | true => exact hwf
              | false =>
                dsimp only
                cases hrel : ep.relation <;> exact hnew
          · rw [if_neg ht]; exact hwf
      · rw [if_neg hs]; exact hwf

theorem updateAct_wf (g : GraphDoc) (p : NodeR) (hwf : wfRef g) :
    wfRef { g with nodes := (updateNodes g.nodes p).1 } := by
  intro e he
  have hids : docIds { g with nodes := (updateNodes g.nodes p).1 } = docIds g := by
    simp [docIds, updateNodes_ids]
  rw [hids]
  exact hwf e he

theorem delNodeAct_wf (g : GraphDoc) (p : NodeR) (hwf : wfRef g) :
    wfRef (delNodeAct g p).1 := by
  unfold delNodeAct
  cases hpd : p.id with
  | none => exact hwf
  | some nid =>
    dsimp only
    cases hr : delNodeFilter g.nodes nid with
    | error e => exact hwf
    | ok ns2 =>
      dsimp only
      intro e he
      simp only [List.mem_filter] at he
      obtain ⟨hemem, hcond⟩ := he
      have h2 := hwf e hemem
      have hcond2 : e.source ≠ some nid ∧ e.target ≠ some nid := by
        simpa using hcond
      have hids : docIds { nodes := ns2, edges := g.edges.filter (fun e => e.source ≠ some nid ∧ e.target ≠ some nid) } =
          (docIds g).filter (fun x => x ≠ nid) := by
        simp only [docIds]
        exact delNodeFilter_ids g.nodes nid ns2 hr
      rw [hids]
      constructor
      · cases hsrc : e.source with
        | none => rw [hsrc] at h2; exact h2.1.elim
        | some s =>
          rw [hsrc] at h2
          have hs : s ∈ docIds g := h2.1
          have hne : s ≠ nid := by
            intro hcontra
            exact hcond2.1 (by rw [hsrc, hcontra])
          exact List.mem_filter.2 ⟨hs, by simpa using hne⟩
      · cases htgt : e.target with
        | none => rw [htgt] at h2; exact h2.2.elim
        | some t =>
          rw [htgt] at h2
          have ht : t ∈ docIds g := h2.2
          have hne : t ≠ nid := by
            intro hcontra
            exact hcond2.2 (by rw [htgt, hcontra])
          exact List.mem_filter.2 ⟨ht, by simpa using hne⟩

theorem delEdgeAct_fst (g : GraphDoc) (ep : EdgeR) :
    (delEdgeAct g ep).1 = { g with edges := g.edges.filter (fun e =>
      ¬(e.source = ep.source ∧ e.target = ep.target ∧ e.relation = ep.relation)) } := by
  unfold delEdgeAct
  dsimp only
  split <;> first
    | rfl
    | (split <;> rfl)

theorem delEdgeAct_wf (g : GraphDoc) (ep : EdgeR) (hwf : wfRef g) :
    wfRef (delEdgeAct g ep).1 := by
  rw [delEdgeAct_fst]
  intro e he
  simp only [List.mem_filter] at he
  exact hwf e he.1

/-- C4: starting from a document in which every edge references existing node
ids at both ends, every feedback action (including failing ones that leave a
partial mutation behind) preserves that property: add_edge inserts only when
both endpoints exist, and delete_node cascade-deletes every incident edge, so
no dangling edge ever remains. -/
theorem c4_referential_integrity (g : GraphDoc) (f : Feedback) (hwf : wfRef g) :
    wfRef (applySingleAction g f).1 := by
  obtain ⟨act, nd, ed⟩ := f
  unfold applySingleAction
  split
  · exact addNodeAct_wf _ _ hwf
  · exact addEdgeAct_wf _ _ hwf
  · exact updateAct_wf _ _ hwf
  · exact delNodeAct_wf _ _ hwf
  · exact delEdgeAct_wf _ _ hwf
  · exact hwf

/-- Witness for C4: deleting the middle node of the concrete chain leaves a
graph whose edges all reference existing nodes. -/
theorem c4_referential_integrity_witness :
    wfRef chainDoc ∧
    wfRef (applySingleAction chainDoc
      { action := some ("delete_node"), node := some (mkNode ("executive_fatigue") none), edge := none }).1 :=
  ⟨by decide,
   c4_referential_integrity chainDoc
     { action := some ("delete_node"), node := some (mkNode ("executive_fatigue") none), edge := none }
     (by decide)⟩

/-! ### Shared lemmas about the linking passes -/

theorem mem_pairList (i j n : Nat) (hij : i < j) (hj : j < n) : (i, j) ∈ pairList n := by
  unfold pairList
  refine List.mem_flatMap.2 ⟨i, List.mem_range.2 (lt_trans hij hj), ?_⟩
  exact List.mem_map.2 ⟨j, List.mem_filter.2 ⟨List.mem_range.2 hj, by simpa using hij⟩, rfl⟩

theorem edgeExists_iff (edges : List EdgeR) (s t r : String) :
    edgeExists edges s t r = true ↔
      ({ source := some s, target := some t, relation := some r } : EdgeR) ∈ edges := by
  unfold edgeExists
  rw [List.any_eq_true]
  constructor
  · rintro ⟨e, he, hp⟩
    simp only [decide_eq_true_eq] at hp
    obtain ⟨h1, h2, h3⟩ := hp
    have he2 : e = { source := some s, target := some t, relation := some r } := by
      cases e
      simp_all
    rwa [he2] at he
  · intro h
    exact ⟨_, h, by simp⟩

theorem linkStep_mono (rel : Nat → Nat → String) (simOK : Nat → Nat → Bool) (ids : List String)
    (edges : List EdgeR) (p : Nat × Nat) (e : EdgeR) (h : e ∈ edges) :
    e ∈ linkStep rel simOK ids edges p := by
  unfold linkStep
  dsimp only
  split
  · split
    · exact h
    · exact List.mem_append_left _ h
  · exact h

theorem linkFold_mono (rel : Nat → Nat → String) (simOK : Nat → Nat → Bool) (ids : List String)
    (ps : List (Nat × Nat)) (edges : List EdgeR) (e : EdgeR) (h : e ∈ edges) :
    e ∈ ps.foldl (linkStep rel simOK ids) edges := by
  induction ps generalizing edges with
  | nil => exact h
  | cons p rest ih => exact ih _ (linkStep_mono _ _ _ _ _ _ h)

theorem linkFold_ensures (rel : Nat → Nat → String) (simOK : Nat → Nat → Bool) (ids : List String)
    (ps : List (Nat × Nat)) (edges : List EdgeR) (p : Nat × Nat)
    (hp : p ∈ ps) (hsim : simOK p.1 p.2 = true) :
    ({ source := some (ids.getD p.1 ("")), target := some (ids.getD p.2 ("")),
       relation := some (rel p.1 p.2) } : EdgeR) ∈ ps.foldl (linkStep rel simOK ids) edges := by
  induction ps generalizing edges with
  | nil => cases hp
  | cons q rest ih =>
    rcases List.mem_cons.1 hp with h | h
    · subst h
      rw [List.foldl_cons]
      refine linkFold_mono _ _ _ _ _ _ ?_
      unfold linkStep
      rw [hsim]
      by_cases hex : edgeExists edges (ids.getD p.1 ("")) (ids.getD p.2 ("")) (rel p.1 p.2) = true
      · simp only [hex, if_true, if_pos]
        exact (edgeExists_iff _ _ _ _).1 hex
      · simp only [hex]
        simp only [if_neg, if_false, Bool.false_eq_true, not_false_eq_true]
        exact List.mem_append_right _ (by simp)
    · rw [List.foldl_cons]
      exact ih _ h

theorem linkFold_noop (rel : Nat → Nat → String) (simOK : Nat → Nat → Bool) (ids : List String)
    (ps : List (Nat × Nat)) (edges : List EdgeR)
    (h : ∀ p ∈ ps, simOK p.1 p.2 = true →
       edgeExists edges (ids.getD p.1 ("")) (ids.getD p.2 ("")) (rel p.1 p.2) = true) :
    ps.foldl (linkStep rel simOK ids) edges = edges := by
  induction ps with
  | nil => rfl
  | cons q rest ih =>
    have hq : linkStep rel simOK ids edges q = edges := by
      unfold linkStep
      cases hs : simOK q.1 q.2 with
      | false => simp
      | true =>
        simp only [if_true]
        rw [h q (List.mem_cons_self q rest) hs]
        simp
    rw [List.foldl_cons, hq]
    exact ih (fun p hp => h p (List.mem_cons_of_mem _ hp))

theorem linkPass_ok (rel : Nat → Nat → String) (simOK : Nat → Nat → Bool) (g : GraphDoc)
    (ids : List String) (h : getIds g.nodes = .ok ids) :
    linkPass rel simOK g =
      .ok { g with edges := (pairList g.nodes.length).foldl (linkStep rel simOK ids) g.edges } := by
  unfold linkPass
  rw [h]

theorem askAgentRelation_fallback (parse : String → Option JVal) (reply : Option JVal)
    (hfail : failsAllShapes parse reply) :
    askAgentRelation parse reply = "UNKNOWN_RELATION" := by
  cases reply with
  | none => rfl
  | some data =>
    unfold failsAllShapes at hfail
    obtain ⟨h1, h2, h3⟩ := hfail
    simp only [askAgentRelation, h1, h2, h3]

theorem linkPass_idempotent (rel : Nat → Nat → String) (simOK : Nat → Nat → Bool)
    (g g2 : GraphDoc) (h : linkPass rel simOK g = .ok g2) :
    linkPass rel simOK g2 = .ok g2 := by
  unfold linkPass at h ⊢
  cases hids : getIds g.nodes with
  | error e =>
    rw [hids] at h
    exact absurd h (by simp)
  | ok ids =>
    rw [hids] at h
    dsimp only at h
    rw [Except.ok.injEq] at h
    obtain ⟨gn, ge⟩ := g2
    rw [GraphDoc.mk.injEq] at h
    obtain ⟨hn, he⟩ := h
    subst hn
    subst he
    dsimp only
    rw [hids]
    dsimp only
    have hall : ∀ p ∈ pairList g.nodes.length, simOK p.1 p.2 = true →
        edgeExists ((pairList g.nodes.length).foldl (linkStep rel simOK ids) g.edges)
          (ids.getD p.1 ("")) (ids.getD p.2 ("")) (rel p.1 p.2) = true := by
      intro p hp hsim
      rw [edgeExists_iff]
      exact linkFold_ensures _ _ _ _ _ p hp hsim
    rw [linkFold_noop _ _ _ _ _ hall]

/-! ### C5: classifier failures fall back to the sentinel relation -/

/-- C5: for a candidate pair whose similarity reaches the threshold, if the
classifier call fails or its reply matches none of the three accepted shapes,
the relation resolves to the sentinel UNKNOWN_RELATION, the pass still
succeeds, and the pair's edge with the sentinel relation is present in the
resulting graph (appended unless the exact triple already existed). -/
theorem c5_classifier_fallback (parse : String → Option JVal) (reply : Nat → Nat → Option JVal)
    (simOK : Nat → Nat → Bool) (g : GraphDoc) (ids : List String) (i j : Nat)
    (hids : getIds g.nodes = .ok ids) (hij : i < j) (hj : j < g.nodes.length)
    (hsim : simOK i j = true) (hfail : failsAllShapes parse (reply i j)) :
    askAgentRelation parse (reply i j) = "UNKNOWN_RELATION" ∧
    ∃ g2, autoLinkEmbeddings (fun a b => askAgentRelation parse (reply a b)) simOK g = .ok g2 ∧
      ({ source := some (ids.getD i ("")), target := some (ids.getD j ("")),
         relation := some ("UNKNOWN_RELATION") } : EdgeR) ∈ g2.edges := by
  have hask : askAgentRelation parse (reply i j) = "UNKNOWN_RELATION" :=
    askAgentRelation_fallback parse (reply i j) hfail
  refine ⟨hask, ?_⟩
  refine ⟨_, linkPass_ok (fun a b => askAgentRelation parse (reply a b)) simOK g ids hids, ?_⟩
  have hmem := linkFold_ensures (fun a b => askAgentRelation parse (reply a b)) simOK ids
    (pairList g.nodes.length) g.edges (i, j) (mem_pairList i j g.nodes.length hij hj)
    (by simpa using hsim)
  simpa [hask] using hmem

def simAll : Nat → Nat → Bool := fun _ _ => true

def pairDoc : GraphDoc :=
  { nodes := [mkNode ("alpha_state") (some ("rest")), mkNode ("beta_state") (some ("rest"))]
    edges := [] }

/-- Witness for C5: a webhook that always fails (no reply) with an
always-qualifying similarity still produces the pair's edge, labelled with
the sentinel relation. -/
theorem c5_classifier_fallback_witness :
    getIds pairDoc.nodes = .ok ["alpha_state", "beta_state"] ∧
    (askAgentRelation (fun _ => none) none = "UNKNOWN_RELATION" ∧
     ∃ g2, autoLinkEmbeddings (fun a b => askAgentRelation (fun _ => none) ((fun _ _ => none) a b))
         simAll pairDoc = .ok g2 ∧
       ({ source := some ((["alpha_state", "beta_state"] : List String).getD 0 ("")),
          target := some ((["alpha_state", "beta_state"] : List String).getD 1 ("")),
          relation := some ("UNKNOWN_RELATION") } : EdgeR) ∈ g2.edges) :=
  ⟨rfl,
   c5_classifier_fallback (fun _ => none) (fun _ _ => none) simAll pairDoc
     ["alpha_state", "beta_state"] 0 1 rfl (by decide) (by decide) rfl trivial⟩

/-! ### C9 (amended): the lexical pass is idempotent -/

/-- C9 amended, idempotence half: a successful TF-IDF pass is idempotent —
run again on its own output (the node list, and hence every similarity, being
unchanged), it adds no duplicate (source, target, relation) triple and
returns the graph unchanged. -/
theorem c9_tfidf_pass_idempotent (simOK : Nat → Nat → Bool) (g g2 : GraphDoc)
    (h : autoLinkTfidf simOK g = .ok g2) :
    autoLinkTfidf simOK g2 = .ok g2 :=
  linkPass_idempotent _ simOK g g2 h

def pairDocLinked : GraphDoc :=
  { nodes := [mkNode ("alpha_state") (some ("rest")), mkNode ("beta_state") (some ("rest"))]
    edges := [mkEdge ("alpha_state") ("beta_state") ("RELATED_TFIDF")] }

/-- Witness for the amended C9: one pass on a concrete two-node document adds
the lexical edge once; the second pass returns the graph unchanged. -/
theorem c9_tfidf_pass_idempotent_witness :
    autoLinkTfidf simAll pairDoc = .ok pairDocLinked ∧
    autoLinkTfidf simAll pairDocLinked = .ok pairDocLinked :=
  ⟨rfl, c9_tfidf_pass_idempotent simAll pairDoc pairDocLinked rfl⟩

/-! ### C6: the reasoning trace is the rendered depth-2 breadth-first traversal -/

/-- C6: for every graph and known state, the reasoning trace of `diagnose` is
exactly the breadth-first traversal bounded to depth 2, rendered as
"A --[relation]--> B" strings in visitation order; on the three-node chain the
trace is the two expected strings. -/
theorem c6_reasoning_trace :
    (∀ (G : NXDiGraph) (s : String), hasNodeG G s = true →
       (diagnose G s).reasoning_path = some ((bfsEdges G s 2).map (fun p =>
         p.1 ++ " --[" ++ renderRel (relOf G p.1 p.2) ++ "]--> " ++ p.2))) ∧
    (diagnose chainG ("low_rest")).reasoning_path =
      some ["low_rest --[TRIGGERS]--> executive_fatigue",
            "executive_fatigue --[TRIGGERS]--> safe_mode"] := by
  constructor
  · intro G s h
    simp [diagnose, h, explainReasoning]
  · decide

/-- Witness for C6 at the middle node of the chain. -/
theorem c6_reasoning_trace_witness :
    hasNodeG chainG ("executive_fatigue") = true ∧
    (diagnose chainG ("executive_fatigue")).reasoning_path =
      some ((bfsEdges chainG ("executive_fatigue") 2).map (fun p =>
        p.1 ++ " --[" ++ renderRel (relOf chainG p.1 p.2) ++ "]--> " ++ p.2)) :=
  ⟨by decide, c6_reasoning_trace.1 chainG ("executive_fatigue") (by decide)⟩

/-! ### Lemmas about the NetworkX graph construction -/

/-- The node ids of the NetworkX graph. -/
def nodeIds (G : NXDiGraph) : List String := G.nodes.map (fun n => n.id)

/-- A `DiGraph` has at most one edge per ordered pair. -/
def pairsNodup (G : NXDiGraph) : Prop :=
  (G.edges.map (fun e => (e.src, e.tgt))).Nodup

theorem hasNodeG_iff (G : NXDiGraph) (x : String) :
    hasNodeG G x = true ↔ x ∈ nodeIds G := by
  simp [hasNodeG, nodeIds, List.any_eq_true]

theorem nodeIfAbsent_edges (G : NXDiGraph) (x : String) :
    (nodeIfAbsent G x).edges = G.edges := by
  unfold nodeIfAbsent
  split <;> rfl

theorem addNXNode_edges (G : NXDiGraph) (nid : String) (ty desc : Option String) :
    (addNXNode G nid ty desc).edges = G.edges := by
  unfold addNXNode
  split <;> rfl

theorem mem_nodeIds_addNXNode (G : NXDiGraph) (nid : String) (ty desc : Option String)
    (x : String) : x ∈ nodeIds (addNXNode G nid ty desc) ↔ x ∈ nodeIds G ∨ x = nid := by
  unfold addNXNode
  split
  case isTrue h =>
    have hmem : nid ∈ nodeIds G := (hasNodeG_iff G nid).1 h
    have hids : nodeIds { G with nodes := G.nodes.map (fun n =>
        if n.id = nid then { n with type := ty, description := desc } else n) } = nodeIds G := by
      simp only [nodeIds, List.map_map]
      refine List.map_congr_left ?_
      intro n _
      by_cases hn : n.id = nid <;> simp [hn]
    rw [hids]
    constructor
    · exact Or.inl
    · rintro (h2 | h2)
      · exact h2
      · rw [h2]; exact hmem
  case isFalse h =>
    simp [nodeIds, List.map_append]

theorem mem_nodeIds_nodeIfAbsent (G : NXDiGraph) (v x : String) :
    x ∈ nodeIds (nodeIfAbsent G v) ↔ x ∈ nodeIds G ∨ x = v := by
  unfold nodeIfAbsent
  split
  case isTrue h =>
    have hmem : v ∈ nodeIds G := (hasNodeG_iff G v).1 h
    constructor
    · exact Or.inl
    · rintro (h2 | h2)
      · exact h2
      · rw [h2]; exact hmem
  case isFalse h =>
    simp [nodeIds, List.map_append]

theorem addNXEdge_core (G : NXDiGraph) (u v : String) (r : Option String) :
    addNXEdge G u v r =
      (let G1 := nodeIfAbsent (nodeIfAbsent G u) v
       if G1.edges.any (fun e => e.src = u ∧ e.tgt = v) then
         { G1 with edges := G1.edges.map (fun e =>
             if e.src = u ∧ e.tgt = v then { e with rel := r } else e) }
       else { G1 with edges := G1.edges ++ [{ src := u, tgt := v, rel := r }] }) := rfl

theorem mem_nodeIds_addNXEdge (G : NXDiGraph) (u v : String) (r : Option String) (x : String) :
    x ∈ nodeIds (addNXEdge G u v r) ↔ x ∈ nodeIds G ∨ x = u ∨ x = v := by
  have hbase : x ∈ nodeIds (nodeIfAbsent (nodeIfAbsent G u) v) ↔ x ∈ nodeIds G ∨ x = u ∨ x = v := by
    rw [mem_nodeIds_nodeIfAbsent, mem_nodeIds_nodeIfAbsent]
    tauto
  unfold addNXEdge
  dsimp only
  split
  · simpa [nodeIds] using hbase
  · simpa [nodeIds] using hbase

theorem addNXEdge_edges (G : NXDiGraph) (u v : String) (r : Option String) :
    (addNXEdge G u v r).edges =
      (if G.edges.any (fun e => e.src = u ∧ e.tgt = v) then
        G.edges.map (fun e => if e.src = u ∧ e.tgt = v then { e with rel := r } else e)
      else G.edges ++ [{ src := u, tgt := v, rel := r }]) := by
  unfold addNXEdge
  dsimp only
  rw [nodeIfAbsent_edges, nodeIfAbsent_edges]
  split <;> rfl

theorem pairsNodup_addNXNode (G : NXDiGraph) (nid : String) (ty desc : Option String)
    (h : pairsNodup G) : pairsNodup (addNXNode G nid ty desc) := by
  unfold pairsNodup
  rw [addNXNode_edges]
  exact h

theorem updRel_pairs (l : List NXEdge) (u v : String) (r : Option String) :
    (l.map (fun e => if e.src = u ∧ e.tgt = v then { e with rel := r } else e)).map
        (fun e => (e.src, e.tgt)) = l.map (fun e => (e.src, e.tgt)) := by
  rw [List.map_map]
  refine List.map_congr_left ?_
  intro e _
  by_cases he : e.src = u ∧ e.tgt = v <;> simp [he]

theorem pairsNodup_addNXEdge (G : NXDiGraph) (u v : String) (r : Option String)
    (h : pairsNodup G) : pairsNodup (addNXEdge G u v r) := by
  unfold pairsNodup
  rw [addNXEdge_edges]
  cases hany : G.edges.any (fun e => e.src = u ∧ e.tgt = v) with
  | true =>
    simp only [if_true]
    rw [updRel_pairs]
    exact h
  | false =>
    simp only [Bool.false_eq_true, if_false]
    rw [List.map_append]
    refine List.Nodup.append h (by simp) ?_
    intro p hp hp2
    simp only [List.map_cons, List.map_nil, List.mem_singleton] at hp2
    subst hp2
    rw [List.mem_map] at hp
    obtain ⟨e, he, hpe⟩ := hp
    have := List.any_eq_false.1 hany e he
    apply this
    have h1 : e.src = u := congrArg Prod.fst hpe
    have h2 : e.tgt = v := congrArg Prod.snd hpe
    simp [h1, h2]

theorem relOf_addNXEdge_self (G : NXDiGraph) (u v : String) (r : Option String) :
    relOf (addNXEdge G u v r) u v = r := by
  unfold relOf
  rw [addNXEdge_edges]
  cases hany : G.edges.any (fun e => e.src = u ∧ e.tgt = v) with
  | true =>
    simp only [if_true]
    rw [List.find?_map]
    have hsome : (G.edges.find? ((fun e => decide (e.src = u ∧ e.tgt = v)) ∘
        (fun e => if e.src = u ∧ e.tgt = v then { e with rel := r } else e))).isSome := by
      rw [List.find?_isSome]
      obtain ⟨e, he, hpe⟩ := List.any_eq_true.1 hany
      refine ⟨e, he, ?_⟩
      simp only [decide_eq_true_eq] at hpe
      simp [Function.comp, hpe]
    obtain ⟨e0, he0⟩ := Option.isSome_iff_exists.1 hsome
    rw [he0]
    have hp := List.find?_some he0
    simp only [Function.comp, decide_eq_true_eq] at hp
    by_cases hcond : e0.src = u ∧ e0.tgt = v
    · simp [hcond]
    · rw [if_neg hcond] at hp
      exact absurd hp hcond
  | false =>
    simp only [Bool.false_eq_true, if_false]
    rw [List.find?_append]
    have hnone : G.edges.find? (fun e => decide (e.src = u ∧ e.tgt = v)) = none := by
      rw [List.find?_eq_none]
      intro e he
      simpa using List.any_eq_false.1 hany e he
    rw [hnone]
    simp

theorem mem_succsG_iff (G : NXDiGraph) (u v : String) :
    v ∈ succsG G u ↔ ∃ e ∈ G.edges, e.src = u ∧ e.tgt = v := by
  unfold succsG
  rw [List.mem_map]
  constructor
  · rintro ⟨e, he, hv⟩
    rw [List.mem_filter] at he
    exact ⟨e, he.1, by simpa using he.2, hv⟩
  · rintro ⟨e, he, h1, h2⟩
    exact ⟨e, List.mem_filter.2 ⟨he, by simpa using h1⟩, h2⟩

theorem mem_succsG_addNXEdge_self (G : NXDiGraph) (u v : String) (r : Option String) :
    v ∈ succsG (addNXEdge G u v r) u := by
  rw [mem_succsG_iff]
  rw [addNXEdge_edges]
  cases hany : G.edges.any (fun e => e.src = u ∧ e.tgt = v) with
  | true =>
    simp only [if_true]
    obtain ⟨e, he, hpe⟩ := List.any_eq_true.1 hany
    simp only [decide_eq_true_eq] at hpe
    refine ⟨{ e with rel := r }, ?_, by simp [hpe.1], by simp [hpe.2]⟩
    rw [List.mem_map]
    exact ⟨e, he, by rw [if_pos hpe]⟩
  | false =>
    simp only [Bool.false_eq_true, if_false]
    exact ⟨{ src := u, tgt := v, rel := r }, List.mem_append_right _ (by simp), rfl, rfl⟩

theorem nodup_tgts_of_pairs (u : String) :
    ∀ (l : List NXEdge), (∀ e ∈ l, e.src = u) →
      (l.map (fun e => (e.src, e.tgt))).Nodup → (l.map (fun e => e.tgt)).Nodup := by
  intro l
  induction l with
  | nil => intro _ _; simp
  | cons e rest ih =>
    intro hconst hnd
    simp only [List.map_cons, List.nodup_cons] at hnd ⊢
    obtain ⟨hhead, hrest⟩ := hnd
    refine ⟨?_, ih (fun x hx => hconst x (List.mem_cons_of_mem _ hx)) hrest⟩
    intro hmem
    rw [List.mem_map] at hmem
    obtain ⟨e2, he2, htv⟩ := hmem
    apply hhead
    rw [List.mem_map]
    refine ⟨e2, he2, ?_⟩
    have h1 : e2.src = u := hconst e2 (List.mem_cons_of_mem _ he2)
    have h2 : e.src = u := hconst e (List.mem_cons_self _ _)
    rw [h1, h2, htv]

theorem succsG_nodup (G : NXDiGraph) (h : pairsNodup G) (u : String) :
    (succsG G u).Nodup := by
  unfold succsG
  have hsub : ((G.edges.filter (fun e => e.src = u)).map (fun e => (e.src, e.tgt))).Sublist
      (G.edges.map (fun e => (e.src, e.tgt))) :=
    (List.filter_sublist _).map _
  have hnd : ((G.edges.filter (fun e => e.src = u)).map (fun e => (e.src, e.tgt))).Nodup :=
    h.sublist hsub
  have hconst : ∀ e ∈ G.edges.filter (fun e => e.src = u), e.src = u := by
    intro e he
    simpa using (List.mem_filter.1 he).2
  exact nodup_tgts_of_pairs u _ hconst hnd

theorem getIds_total (ns : List NodeR) (h : ∀ n ∈ ns, n.id.isSome) :
    getIds ns = .ok (ns.filterMap (fun n => n.id)) := by
  induction ns with
  | nil => rfl
  | cons n rest ih =>
    have hn := h n (List.mem_cons_self _ _)
    obtain ⟨nid, hnid⟩ := Option.isSome_iff_exists.1 hn
    unfold getIds
    rw [hnid, ih (fun x hx => h x (List.mem_cons_of_mem _ hx))]
    simp [List.filterMap_cons, hnid]

theorem dupEdgeCheck_eq (es : List EdgeR) (s t r : String) :
    dupEdgeCheck es s t (some r) = .ok (edgeExists es s t r) := by
  induction es with
  | nil => rfl
  | cons e rest ih =>
    unfold dupEdgeCheck
    by_cases hst : e.source = some s ∧ e.target = some t
    · rw [if_pos hst]
      dsimp only
      by_cases hr : e.relation = some r
      · rw [if_pos hr]
        have hex : edgeExists (e :: rest) s t r = true := by
          simp [edgeExists, hst.1, hst.2, hr]
        rw [hex]
      · rw [if_neg hr, ih]
        have hpred : ¬(e.source = some s ∧ e.target = some t ∧ e.relation = some r) :=
          fun hc => hr hc.2.2
        have hex : edgeExists (e :: rest) s t r = edgeExists rest s t r := by
          simp only [edgeExists, List.any_cons]
          simp [hpred]
        rw [hex]
    · rw [if_neg hst, ih]
      have hex : edgeExists (e :: rest) s t r = edgeExists rest s t r := by
        simp only [edgeExists, List.any_cons]
        have : ¬(e.source = some s ∧ e.target = some t ∧ e.relation = some r) :=
          fun hc => hst ⟨hc.1, hc.2.1⟩
        simp [this]
      rw [hex]

theorem addEdgeAct_success (g : GraphDoc) (s t r : String)
    (hn : ∀ n ∈ g.nodes, n.id.isSome) (hs : s ∈ docIds g) (ht : t ∈ docIds g)
    (hnew : edgeExists g.edges s t r = false) :
    addEdgeAct g (mkEdge s t r) = ({ g with edges := g.edges ++ [mkEdge s t r] }, none) := by
  unfold docIds at hs ht
  unfold addEdgeAct
  rw [getIds_total g.nodes hn]
  dsimp only [mkEdge]
  rw [if_pos hs, if_pos ht, dupEdgeCheck_eq, hnew]

theorem addEdgeAct_dup (g : GraphDoc) (s t r : String)
    (hn : ∀ n ∈ g.nodes, n.id.isSome) (hs : s ∈ docIds g) (ht : t ∈ docIds g)
    (hdup : edgeExists g.edges s t r = true) :
    addEdgeAct g (mkEdge s t r) = (g, none) := by
  unfold docIds at hs ht
  unfold addEdgeAct
  rw [getIds_total g.nodes hn]
  dsimp only [mkEdge]
  rw [if_pos hs, if_pos ht, dupEdgeCheck_eq, hdup]

theorem applySingleAction_addEdgeFb (g : GraphDoc) (s t r : String) :
    applySingleAction g (addEdgeFb s t r) = addEdgeAct g (mkEdge s t r) := rfl

theorem edgeExists_append_self (es : List EdgeR) (s t r : String) :
    edgeExists (es ++ [mkEdge s t r]) s t r = true := by
  simp [edgeExists, List.any_append, mkEdge]

theorem buildNodes_ok (G : NXDiGraph) (ns : List NodeR) (h : ∀ n ∈ ns, n.id.isSome) :
    (buildNodes G ns).2 = true := by
  induction ns generalizing G with
  | nil => rfl
  | cons n rest ih =>
    have hn := h n (List.mem_cons_self _ _)
    obtain ⟨nid, hnid⟩ := Option.isSome_iff_exists.1 hn
    unfold buildNodes
    rw [hnid]
    exact ih _ (fun x hx => h x (List.mem_cons_of_mem _ hx))

theorem pairsNodup_buildNodes (G : NXDiGraph) (ns : List NodeR) (h : pairsNodup G) :
    pairsNodup (buildNodes G ns).1 := by
  induction ns generalizing G with
  | nil => exact h
  | cons n rest ih =>
    unfold buildNodes
    cases n.id with
    | none => exact h
    | some nid => exact ih _ (pairsNodup_addNXNode G nid n.type n.description h)

theorem pairsNodup_buildEdges (G : NXDiGraph) (l : List EdgeR) (h : pairsNodup G) :
    pairsNodup (buildEdges G l).1 := by
  induction l generalizing G with
  | nil => exact h
  | cons e rest ih =>
    unfold buildEdges
    cases e.source with
    | none => exact h
    | some s =>
      cases e.target with
      | none => exact h
      | some t => exact ih _ (pairsNodup_addNXEdge G s t e.relation h)

theorem pairsNodup_buildFrom (doc : GraphDoc) : pairsNodup (buildFrom doc) := by
  have hempty : pairsNodup emptyNX := by simp [pairsNodup, emptyNX]
  unfold buildFrom
  dsimp only
  split
  · exact pairsNodup_buildEdges _ _ (pairsNodup_buildNodes _ _ hempty)
  · exact pairsNodup_buildNodes _ _ hempty

theorem buildEdges_cons (G : NXDiGraph) (e : EdgeR) (l : List EdgeR) :
    buildEdges G (e :: l) =
      (match e.source with
       | none => (G, false)
       | some s =>
         match e.target with
         | none => (G, false)
         | some t => buildEdges (addNXEdge G s t e.relation) l) := rfl

theorem buildEdges_append (G : NXDiGraph) (l1 l2 : List EdgeR)
    (h : ∀ e ∈ l1, e.source.isSome ∧ e.target.isSome) :
    buildEdges G (l1 ++ l2) = buildEdges (buildEdges G l1).1 l2 := by
  induction l1 generalizing G with
  | nil => rfl
  | cons e rest ih =>
    obtain ⟨hs, ht⟩ := h e (List.mem_cons_self _ _)
    obtain ⟨s, hs2⟩ := Option.isSome_iff_exists.1 hs
    obtain ⟨t, ht2⟩ := Option.isSome_iff_exists.1 ht
    show buildEdges G (e :: (rest ++ l2)) = buildEdges (buildEdges G (e :: rest)).1 l2
    rw [buildEdges_cons G e (rest ++ l2), buildEdges_cons G e rest, hs2, ht2]
    dsimp only
    exact ih _ (fun x hx => h x (List.mem_cons_of_mem _ hx))

theorem buildFrom_snoc (doc : GraphDoc) (s t r : String)
    (hn : ∀ n ∈ doc.nodes, n.id.isSome)
    (he : ∀ x ∈ doc.edges, x.source.isSome ∧ x.target.isSome) :
    buildFrom { nodes := doc.nodes, edges := doc.edges ++ [mkEdge s t r] } =
      addNXEdge (buildFrom doc) s t (some r) := by
  have hok : (buildNodes emptyNX doc.nodes).2 = true := buildNodes_ok _ _ hn
  unfold buildFrom
  dsimp only
  rw [hok]
  simp only [if_true]
  rw [buildEdges_append _ _ _ he]
  rfl

theorem countP_eq_one_unique {α : Type} (p : α → Bool) (t : α) :
    ∀ (l : List α), l.Nodup → t ∈ l → (∀ x ∈ l, (p x = true ↔ x = t)) → l.countP p = 1 := by
  intro l
  induction l with
  | nil => intro _ hmem _; cases hmem
  | cons x rest ih =>
    intro hnd hmem hp
    rw [List.nodup_cons] at hnd
    rw [List.countP_cons]
    by_cases hx : x = t
    · have hpx : p x = true := (hp x (List.mem_cons_self _ _)).2 hx
      rw [hpx]
      have hzero : rest.countP p = 0 := by
        rw [List.countP_eq_zero]
        intro a ha hpa
        have ha2 : a = t := (hp a (List.mem_cons_of_mem _ ha)).1 hpa
        rw [ha2] at ha
        rw [hx] at hnd
        exact hnd.1 ha
      rw [hzero]
      simp
    · have hpx : p x = false := by
        cases hpb : p x with
        | false => rfl
        | true => exact absurd ((hp x (List.mem_cons_self _ _)).1 hpb) hx
      rw [hpx]
      have hmem2 : t ∈ rest := by
        rcases List.mem_cons.1 hmem with h | h
        · exact absurd h.symm hx
        · exact h
      rw [ih hnd.2 hmem2 (fun y hy => hp y (List.mem_cons_of_mem _ hy))]
      simp

/-! ### C1: an inserted edge is diagnosed exactly once, idempotently -/

/-- C1: when an add_edge action for (s, t, r) actually inserts (both endpoints
exist and the exact triple is absent — also when another (s, t) edge with a
different relation is present), the action appends the edge and raises
nothing; replaying the identical action any number of times changes nothing
further; and diagnosing s on the reloaded graph lists t paired with relation r
exactly once (and t itself exactly once among the risks). -/
theorem c1_add_edge_exactly_once (doc : GraphDoc) (s t r : String) (k : Nat)
    (hn : ∀ n ∈ doc.nodes, n.id.isSome)
    (he : ∀ e ∈ doc.edges, e.source.isSome ∧ e.target.isSome)
    (hs : s ∈ docIds doc) (ht : t ∈ docIds doc)
    (hnew : edgeExists doc.edges s t r = false) :
    applySingleAction doc (addEdgeFb s t r) =
      ({ nodes := doc.nodes, edges := doc.edges ++ [mkEdge s t r] }, none) ∧
    (fun d => (applySingleAction d (addEdgeFb s t r)).1)^[k]
      ({ nodes := doc.nodes, edges := doc.edges ++ [mkEdge s t r] } : GraphDoc) =
      { nodes := doc.nodes, edges := doc.edges ++ [mkEdge s t r] } ∧
    ∃ risks, (diagnose (buildFrom { nodes := doc.nodes, edges := doc.edges ++ [mkEdge s t r] })
        s).predicted_risks = some risks ∧
      risks.countP (fun p => p = (t, some r)) = 1 ∧
      risks.countP (fun p => p.1 = t) = 1 := by
  have hstep : applySingleAction doc (addEdgeFb s t r) =
      ({ nodes := doc.nodes, edges := doc.edges ++ [mkEdge s t r] }, none) := by
    rw [applySingleAction_addEdgeFb]
    exact addEdgeAct_success doc s t r hn hs ht hnew
  refine ⟨hstep, ?_, ?_⟩
  · apply Function.iterate_fixed
    show (applySingleAction { nodes := doc.nodes, edges := doc.edges ++ [mkEdge s t r] }
      (addEdgeFb s t r)).1 = _
    rw [applySingleAction_addEdgeFb]
    rw [addEdgeAct_dup { nodes := doc.nodes, edges := doc.edges ++ [mkEdge s t r] } s t r hn hs ht
      (edgeExists_append_self doc.edges s t r)]
  · have hbuild : buildFrom { nodes := doc.nodes, edges := doc.edges ++ [mkEdge s t r] } =
        addNXEdge (buildFrom doc) s t (some r) := buildFrom_snoc doc s t r hn he
    rw [hbuild]
    have hnode : hasNodeG (addNXEdge (buildFrom doc) s t (some r)) s = true := by
      rw [hasNodeG_iff, mem_nodeIds_addNXEdge]
      exact Or.inr (Or.inl rfl)
    have hnd : (succsG (addNXEdge (buildFrom doc) s t (some r)) s).Nodup :=
      succsG_nodup _ (pairsNodup_addNXEdge _ _ _ _ (pairsNodup_buildFrom doc)) s
    have hmem : t ∈ succsG (addNXEdge (buildFrom doc) s t (some r)) s :=
      mem_succsG_addNXEdge_self _ _ _ _
    have hrel : relOf (addNXEdge (buildFrom doc) s t (some r)) s t = some r :=
      relOf_addNXEdge_self _ _ _ _
    have hdiag : (diagnose (addNXEdge (buildFrom doc) s t (some r)) s).predicted_risks =
        some ((succsG (addNXEdge (buildFrom doc) s t (some r)) s).map
          (fun x => (x, relOf (addNXEdge (buildFrom doc) s t (some r)) s x))) := by
      simp [diagnose, hnode]
    refine ⟨_, hdiag, ?_, ?_⟩
    · rw [List.countP_map]
      apply countP_eq_one_unique _ t _ hnd hmem
      intro x hx
      constructor
      · intro hpx
        simp only [Function.comp, decide_eq_true_eq, Prod.mk.injEq] at hpx
        exact hpx.1
      · intro hxt
        subst hxt
        simp only [Function.comp, decide_eq_true_eq, Prod.mk.injEq]
        exact ⟨trivial, hrel⟩
    · rw [List.countP_map]
      apply countP_eq_one_unique _ t _ hnd hmem
      intro x hx
      simp [Function.comp]

def witDoc : GraphDoc :=
  { nodes := [mkNode ("node_a") none, mkNode ("node_b") none]
    edges := [mkEdge ("node_a") ("node_b") ("OTHER_REL")] }

def witDoc2 : GraphDoc :=
  { nodes := witDoc.nodes
    edges := witDoc.edges ++ [mkEdge ("node_a") ("node_b") ("NEW_REL")] }

/-- Witness for C1 on a document that already carries an (a, b) edge with a
different relation label. -/
theorem c1_add_edge_exactly_once_witness :
    edgeExists witDoc.edges ("node_a") ("node_b") ("NEW_REL") = false ∧
    (∃ risks, (diagnose (buildFrom witDoc2) ("node_a")).predicted_risks = some risks ∧
      risks.countP (fun p => p = ("node_b", some ("NEW_REL"))) = 1 ∧
      risks.countP (fun p => p.1 = "node_b") = 1) :=
  ⟨by decide,
   (c1_add_edge_exactly_once witDoc ("node_a") ("node_b") ("NEW_REL") 3
     (by decide) (by decide) (by decide) (by decide) (by decide)).2.2⟩

/-! ### C3: safe-mode activation is exactly graph reachability -/

/-- A NetworkX graph structurally cannot hold an edge without its endpoint
nodes; the embedding states this as a hypothesis. -/
def wfG (G : NXDiGraph) : Prop :=
  ∀ e ∈ G.edges, e.src ∈ nodeIds G ∧ e.tgt ∈ nodeIds G

instance (G : NXDiGraph) : Decidable (wfG G) :=
  inferInstanceAs (Decidable (∀ e ∈ G.edges, e.src ∈ nodeIds G ∧ e.tgt ∈ nodeIds G))

theorem subset_reachStep (G : NXDiGraph) (S : List String) : S ⊆ reachStep G S :=
  fun _ hx => List.mem_append_left _ hx

theorem subset_reachIter (G : NXDiGraph) : ∀ (k : Nat) (S : List String), S ⊆ reachIter G k S := by
  intro k
  induction k with
  | zero => intro S x hx; exact hx
  | succ k ih => intro S x hx; exact ih _ (subset_reachStep G S hx)

theorem reachStep_sound (G : NXDiGraph) (s : String) (S : List String)
    (h : ∀ x ∈ S, ReachProp G s x) : ∀ x ∈ reachStep G S, ReachProp G s x := by
  intro x hx
  rcases List.mem_append.1 hx with h2 | h2
  · exact h x h2
  · rw [List.mem_dedup, List.mem_filter] at h2
    obtain ⟨h3, _⟩ := h2
    rw [List.mem_flatMap] at h3
    obtain ⟨y, hy, hxy⟩ := h3
    exact Relation.ReflTransGen.tail (h y hy) hxy

theorem reachIter_sound (G : NXDiGraph) (s : String) : ∀ (k : Nat) (S : List String),
    (∀ x ∈ S, ReachProp G s x) → ∀ x ∈ reachIter G k S, ReachProp G s x := by
  intro k
  induction k with
  | zero => intro S h x hx; exact h x hx
  | succ k ih => intro S h x hx; exact ih _ (reachStep_sound G s S h) x hx

theorem reachStep_closed (G : NXDiGraph) (S : List String) (h : reachStep G S = S) :
    ∀ x ∈ S, ∀ y ∈ succsG G x, y ∈ S := by
  intro x hx y hy
  by_contra hns
  have hmem : y ∈ ((S.flatMap (succsG G)).filter (fun v => v ∉ S)).dedup := by
    rw [List.mem_dedup, List.mem_filter]
    exact ⟨List.mem_flatMap.2 ⟨x, hx, hy⟩, by simpa using hns⟩
  have hy2 : y ∈ reachStep G S := List.mem_append_right _ hmem
  rw [h] at hy2
  exact hns hy2

theorem reachIter_of_fix (G : NXDiGraph) : ∀ (k : Nat) (S : List String),
    reachStep G S = S → reachIter G k S = S := by
  intro k
  induction k with
  | zero => intro S _; rfl
  | succ k ih =>
    intro S h
    show reachIter G k (reachStep G S) = S
    rw [h]
    exact ih S h

theorem reachStep_grow (G : NXDiGraph) (S : List String) (h : reachStep G S ≠ S) :
    S.length + 1 ≤ (reachStep G S).length := by
  unfold reachStep at *
  cases hD : ((S.flatMap (succsG G)).filter (fun v => v ∉ S)).dedup with
  | nil => exact absurd (by rw [hD]; simp) h
  | cons d ds =>
    simp only [List.length_append, List.length_cons]
    omega

theorem reachIter_fix_or_grow (G : NXDiGraph) : ∀ (k : Nat) (S : List String),
    (∃ T, reachIter G k S = T ∧ reachStep G T = T) ∨ S.length + k ≤ (reachIter G k S).length := by
  intro k
  induction k with
  | zero => intro S; right; simp [reachIter]
  | succ k ih =>
    intro S
    by_cases hfix : reachStep G S = S
    · left
      refine ⟨S, ?_, hfix⟩
      show reachIter G k (reachStep G S) = S
      rw [hfix]
      exact reachIter_of_fix G k S hfix
    · rcases ih (reachStep G S) with ⟨T, hT, hTfix⟩ | hlen
      · left
        exact ⟨T, hT, hTfix⟩
      · right
        have hg := reachStep_grow G S hfix
        show S.length + (k + 1) ≤ (reachIter G k (reachStep G S)).length
        omega

theorem reachStep_subset_nodes (G : NXDiGraph) (S : List String) (hwf : wfG G)
    (hS : ∀ x ∈ S, x ∈ nodeIds G) : ∀ x ∈ reachStep G S, x ∈ nodeIds G := by
  intro x hx
  rcases List.mem_append.1 hx with h | h
  · exact hS x h
  · rw [List.mem_dedup, List.mem_filter] at h
    obtain ⟨h1, _⟩ := h
    rw [List.mem_flatMap] at h1
    obtain ⟨y, _, hxy⟩ := h1
    rw [mem_succsG_iff] at hxy
    obtain ⟨e, he, _, htgt⟩ := hxy
    rw [← htgt]
    exact (hwf e he).2

theorem reachIter_subset_nodes (G : NXDiGraph) (hwf : wfG G) : ∀ (k : Nat) (S : List String),
    (∀ x ∈ S, x ∈ nodeIds G) → ∀ x ∈ reachIter G k S, x ∈ nodeIds G := by
  intro k
  induction k with
  | zero => intro S h x hx; exact h x hx
  | succ k ih => intro S h x hx; exact ih _ (reachStep_subset_nodes G S hwf h) x hx

theorem reachStep_nodup (G : NXDiGraph) (S : List String) (h : S.Nodup) :
    (reachStep G S).Nodup := by
  refine List.Nodup.append h (List.nodup_dedup _) ?_
  intro a ha ha2
  rw [List.mem_dedup, List.mem_filter] at ha2
  exact absurd ha (by simpa using ha2.2)

theorem reachIter_nodup (G : NXDiGraph) : ∀ (k : Nat) (S : List String),
    S.Nodup → (reachIter G k S).Nodup := by
  intro k
  induction k with
  | zero => intro S h; exact h
  | succ k ih => intro S h; exact ih _ (reachStep_nodup G S h)

theorem length_le_dedup (l u : List String) (hnd : l.Nodup) (hsub : ∀ x ∈ l, x ∈ u) :
    l.length ≤ u.dedup.length := by
  have hsub2 : l ⊆ u.dedup := fun x hx => List.mem_dedup.2 (hsub x hx)
  exact (hnd.subperm hsub2).length_le

theorem reachList_closed (G : NXDiGraph) (s : String) (hwf : wfG G)
    (hs : s ∈ nodeIds G) : ∀ x ∈ reachList G s, ∀ y ∈ succsG G x, y ∈ reachList G s := by
  unfold reachList
  rcases reachIter_fix_or_grow G ((nodeIds G).dedup.length) [s] with ⟨T, hT, hfix⟩ | hlen
  · rw [show (G.nodes.map (fun n => n.id)).dedup.length = (nodeIds G).dedup.length from rfl, hT]
    exact reachStep_closed G T hfix
  · exfalso
    have hnodup := reachIter_nodup G ((nodeIds G).dedup.length) [s] (by simp)
    have hsub := reachIter_subset_nodes G hwf ((nodeIds G).dedup.length) [s]
      (by intro x hx; rw [List.mem_singleton] at hx; rw [hx]; exact hs)
    have hle := length_le_dedup _ (nodeIds G) hnodup hsub
    simp only [List.length_singleton] at hlen
    omega

theorem reachProp_mem_reachList (G : NXDiGraph) (s t : String) (hwf : wfG G)
    (hs : s ∈ nodeIds G) (h : ReachProp G s t) : t ∈ reachList G s := by
  induction h with
  | refl => exact subset_reachIter G _ [s] (by simp)
  | tail hab hbc ih => exact reachList_closed G s hwf hs _ ih _ hbc

theorem mem_reachList_reachProp (G : NXDiGraph) (s t : String) (h : t ∈ reachList G s) :
    ReachProp G s t := by
  refine reachIter_sound G s _ [s] ?_ t h
  intro x hx
  rw [List.mem_singleton] at hx
  rw [hx]
  exact Relation.ReflTransGen.refl

/-- C3: for every (structurally well-formed) graph and node s in it,
`diagnose(s).activates_safe_mode` is true exactly when a directed path from s
to the node "safe_mode" exists; in particular, when "safe_mode" is not a node
of the graph, the flag is false (and no error is raised, `diagnose` being
total). -/
theorem c3_safe_mode_reachability (G : NXDiGraph) (s : String)
    (hwf : wfG G) (hs : hasNodeG G s = true) :
    ((diagnose G s).activates_safe_mode = true ↔ ReachProp G s ("safe_mode")) ∧
    (hasNodeG G ("safe_mode") = false → (diagnose G s).activates_safe_mode = false) := by
  have hact : (diagnose G s).activates_safe_mode =
      (hasNodeG G ("safe_mode") && hasPathB G s ("safe_mode")) := by
    simp [diagnose, hs]
  constructor
  · rw [hact]
    constructor
    · intro h
      rw [Bool.and_eq_true] at h
      have hb := h.2
      unfold hasPathB at hb
      rw [decide_eq_true_iff] at hb
      exact mem_reachList_reachProp G s _ hb
    · intro h
      rw [Bool.and_eq_true]
      constructor
      · rcases Relation.ReflTransGen.cases_tail h with heq | ⟨c, _, hstep⟩
        · rw [heq]
          exact hs
        · rw [hasNodeG_iff]
          unfold EdgeStep at hstep
          rw [mem_succsG_iff] at hstep
          obtain ⟨e, he, _, htgt⟩ := hstep
          rw [← htgt]
          exact (hwf e he).2
      · unfold hasPathB
        rw [decide_eq_true_iff]
        exact reachProp_mem_reachList G s _ hwf ((hasNodeG_iff G s).1 hs) h
  · intro hno
    rw [hact, hno]
    simp

/-- Witness for C3 on the concrete chain graph. -/
theorem c3_safe_mode_reachability_witness :
    wfG chainG ∧ hasNodeG chainG ("low_rest") = true ∧
    ((diagnose chainG ("low_rest")).activates_safe_mode = true ↔
      ReachProp chainG ("low_rest") ("safe_mode")) :=
  ⟨by decide, by decide,
   (c3_safe_mode_reachability chainG ("low_rest") (by decide) (by decide)).1⟩

/-! ### C9 counterexample: identical descriptions need not reach the threshold -/

/-- The tokenized corpus of two nodes with ids n1, n2 and the identical
description "rest". -/
def exDocs : List (List String) := [["n1", "rest"], ["n2", "rest"]]

theorem exDocs_weights :
    wgt exDocs 0 ("n1") = Real.log (3 / 2) + 1 ∧
    wgt exDocs 1 ("n1") = 0 ∧
    wgt exDocs 0 ("n2") = 0 ∧
    wgt exDocs 1 ("n2") = Real.log (3 / 2) + 1 ∧
    wgt exDocs 0 ("rest") = 1 ∧
    wgt exDocs 1 ("rest") = 1 := by
  refine ⟨?_, ?_, ?_, ?_, ?_, ?_⟩
  · unfold wgt idfR
    rw [show (exDocs.getD 0 []).count ("n1") = 1 from rfl,
        show dfCount exDocs ("n1") = 1 from rfl,
        show exDocs.length = 2 from rfl]
    norm_num
  · unfold wgt idfR
    rw [show (exDocs.getD 1 []).count ("n1") = 0 from rfl]
    norm_num
  · unfold wgt idfR
    rw [show (exDocs.getD 0 []).count ("n2") = 0 from rfl]
    norm_num
  · unfold wgt idfR
    rw [show (exDocs.getD 1 []).count ("n2") = 1 from rfl,
        show dfCount exDocs ("n2") = 1 from rfl,
        show exDocs.length = 2 from rfl]
    norm_num
  · unfold wgt idfR
    rw [show (exDocs.getD 0 []).count ("rest") = 1 from rfl,
        show dfCount exDocs ("rest") = 2 from rfl,
        show exDocs.length = 2 from rfl]
    norm_num [Real.log_one]
  · unfold wgt idfR
    rw [show (exDocs.getD 1 []).count ("rest") = 1 from rfl,
        show dfCount exDocs ("rest") = 2 from rfl,
        show exDocs.length = 2 from rfl]
    norm_num [Real.log_one]

theorem exDocs_dot01 : dotW exDocs 0 1 = 1 := by
  obtain ⟨h1, h2, h3, h4, h5, h6⟩ := exDocs_weights
  unfold dotW
  rw [show tfVocab exDocs = ["n1", "n2", "rest"] from rfl]
  simp only [List.map_cons, List.map_nil, List.sum_cons, List.sum_nil]
  rw [h1, h2, h3, h4, h5, h6]
  ring

theorem exDocs_dot00 : dotW exDocs 0 0 = (Real.log (3 / 2) + 1) ^ 2 + 1 := by
  obtain ⟨h1, _, h3, _, h5, _⟩ := exDocs_weights
  unfold dotW
  rw [show tfVocab exDocs = ["n1", "n2", "rest"] from rfl]
  simp only [List.map_cons, List.map_nil, List.sum_cons, List.sum_nil]
  rw [h1, h3, h5]
  ring

theorem exDocs_dot11 : dotW exDocs 1 1 = (Real.log (3 / 2) + 1) ^ 2 + 1 := by
  obtain ⟨_, h2, _, h4, _, h6⟩ := exDocs_weights
  unfold dotW
  rw [show tfVocab exDocs = ["n1", "n2", "rest"] from rfl]
  simp only [List.map_cons, List.map_nil, List.sum_cons, List.sum_nil]
  rw [h2, h4, h6]
  ring

theorem exp_039_lt : Real.exp (39 / 100 : ℝ) < 3 / 2 := by
  have h0 := Real.add_one_le_exp (-(39 / 1600 : ℝ))
  have h2 : (1 : ℝ) - 39 / 1600 ≤ Real.exp (-(39 / 1600 : ℝ)) := by linarith
  have h3 : (0 : ℝ) < 1 - 39 / 1600 := by norm_num
  rw [Real.exp_neg] at h2
  have h6 := inv_anti₀ h3 h2
  rw [inv_inv] at h6
  have hpow : Real.exp (39 / 100 : ℝ) = (Real.exp (39 / 1600 : ℝ)) ^ (16 : ℕ) := by
    rw [← Real.exp_nat_mul]
    norm_num
  have hb : (Real.exp (39 / 1600 : ℝ)) ^ (16 : ℕ) ≤ ((1 - 39 / 1600 : ℝ)⁻¹) ^ (16 : ℕ) :=
    pow_le_pow_left₀ (le_of_lt (Real.exp_pos _)) h6 16
  have hnum : ((1 - 39 / 1600 : ℝ)⁻¹) ^ (16 : ℕ) < 3 / 2 := by norm_num
  calc Real.exp (39 / 100 : ℝ) = (Real.exp (39 / 1600 : ℝ)) ^ (16 : ℕ) := hpow
    _ ≤ ((1 - 39 / 1600 : ℝ)⁻¹) ^ (16 : ℕ) := hb
    _ < 3 / 2 := hnum

/-- C9 counterexample: the lexical similarity is computed over the whole text
representation (id plus description), so the two nodes n1 and n2 with the
identical description "rest" score about 0.336, strictly below the default
threshold 0.35 — refuting "for every pair of distinct nodes with identical
descriptions the computed lexical similarity is at or above the threshold". -/
theorem c9_identical_descriptions_counterexample :
    (mkNode ("n1") (some ("rest"))).description = (mkNode ("n2") (some ("rest"))).description ∧
    corpusOf [mkNode ("n1") (some ("rest")), mkNode ("n2") (some ("rest"))] = exDocs ∧
    tfidfSimilarity exDocs 0 1 < 35 / 100 := by
  refine ⟨rfl, by decide, ?_⟩
  unfold tfidfSimilarity
  rw [exDocs_dot01, exDocs_dot00, exDocs_dot11]
  have hnn : (0 : ℝ) ≤ (Real.log (3 / 2) + 1) ^ 2 + 1 := by positivity
  rw [Real.mul_self_sqrt hnn]
  have hlog : (39 / 100 : ℝ) < Real.log (3 / 2) := by
    rw [Real.lt_log_iff_exp_lt (by norm_num : (0 : ℝ) < 3 / 2)]
    exact exp_039_lt
  have hpos : (0 : ℝ) < (Real.log (3 / 2) + 1) ^ 2 + 1 := by positivity
  rw [div_lt_iff₀ hpos]
  nlinarith [hlog, sq_nonneg (Real.log (3 / 2) + 1 - 139 / 100)]

end Aquitari

